import Mathlib

/-!
# Verification of the `pystav` GMM-based voice conversion mapper

Shallow embedding of `src/pystav/gmmmap.py` (classes `GMMMap` and
`TrajectoryGMMMap`) over exact rational arithmetic, together with theorems
settling the specification claims.

Modelling conventions:

* numpy arrays of floats become functions `Fin n → ℚ` and Mathlib matrices
  `Matrix (Fin m) (Fin n) ℚ`; float arithmetic is idealised as exact
  rational arithmetic.
* `np.linalg.solve A b` / `np.linalg.inv A` raise `LinAlgError` exactly when
  `A` is singular; we model the inverse by the computable adjugate formula
  `qInv A = (qdet A)⁻¹ • qadj A` (which equals the true inverse whenever
  `qdet A ≠ 0`) and model the raising behaviour by explicit error values.
* the multivariate Gaussian density used by `sklearn.mixture.GMM`
  (`predict_proba` / `predict`) is transcendental, hence it is abstracted as
  an explicit parameter `gauss` (mean, covariance, point ↦ density value);
  posterior responsibilities and the arg-max used by `predict` are embedded
  literally in terms of `gauss`.
* Python exceptions (`AttributeError`, `numpy.linalg.LinAlgError`,
  shape-mismatch `ValueError`) become values of an error type `Err`.
-/

open scoped Matrix

/-! ## Computable determinant, adjugate and inverse over ℚ -/

/-! ## The fitted joint mixture model consumed by the mapper

The constructor argument `gmm` is an already-fitted `sklearn.mixture.GMM`
over the concatenated (source, target) feature space; the mapper reads only
its attributes `means_`, `covars_` (full covariances) and `weights_`. -/

/-! ## The source-marginal density and posterior responsibilities

The mapping stage evaluates posterior component responsibilities for a
source vector under the marginal mixture `self.px` (weights `weights`,
means `src_means`, covariances `covarXX`).  The multivariate normal density
used by sklearn is transcendental, so it is abstracted as an explicit
parameter `gauss`: `gauss n μ Σ x` stands for the value of the Gaussian
density with mean `μ` and covariance `Σ` at the point `x`. -/

/-! ## Dynamically shaped numpy values -/

/-! ## The consistency operator W

`TrajectoryGMMMap.__construct_weight_matrix(T, D)` assembles, per frame
`t`, a static block `w0` (`D × D·T`, identity placed at column block `t`)
and a delta block `w1` (`−0.5·I` at column block `t − 1` if `t − 1 ≥ 0`,
`+0.5·I` at column block `t + 1` if `t + 1 < T`), stacks them vertically
and concatenates the per-frame stacks into `W` of shape `(2·D·T, D·T)`.
The embedding builds the same matrix as a list of rows (`Wrows`) and
converts it to a `Matrix` for the linear algebra (`construct_weight_matrix`). -/

/-! ## Trajectory mapping state

A `TrajectoryGMMMap` instance carries the split parameters of its base
class plus the cached sequence length `self.T`, the cached consistency
operator `self.W`, optional global-variance parameters, and the
dynamically rebound attributes `self.D` / `self.E`: at construction time
`self.D` is the per-component residual covariance array and `self.E` does
not exist; `TrajectoryGMMMap.convert` rebinds `self.D` to the per-sequence
block-diagonal precision matrix and `self.E` to the flattened per-sequence
estimate vector. -/

/-! ## Flattening, reshaping and block diagonals -/

/-! ## Structure of the assembled consistency operator -/

/-! ## The trajectory solve -/

/-! ## Frame-level conversion -/

/-! ## Concrete instances used to witness the theorems -/

/-! ## Construction-time behaviour (swap bug, validity checks) -/

/-! ## Concrete trajectory instances -/

/-! ## Global-variance post-filter behaviour -/

/-- Errors raised by the embedded code.  `errXY` is the `AttributeError`
raised by reading the undefined attribute `self.XY`; `errSingular` is
`numpy.linalg.LinAlgError` from `solve`/`inv` on a singular matrix;
`errPv` is the `AttributeError` from reading `self.Pv` when no GV model was
supplied; `errShape` is the `ValueError` from operating on arrays whose
shapes do not align (including numpy broadcast failures on slice
assignment); `errW` is the `AttributeError` from reading the
never-assigned `self.W` when `__construct_weight_matrix` runs with
`T = 0` at construction time. -/
inductive Err where
  | errXY : Err
  | errSingular : Err
  | errPv : Err
  | errShape : Err
  | errW : Err
deriving DecidableEq, Repr

/-- Computable determinant by Laplace expansion along the first row. -/
def qdet : {n : ℕ} → Matrix (Fin n) (Fin n) ℚ → ℚ
  | 0, _ => 1
  | n + 1, A =>
      ∑ j : Fin (n + 1),
        (-1) ^ (j : ℕ) * A 0 j * qdet (A.submatrix Fin.succ j.succAbove)

/-- Computable adjugate: entry `(i, j)` is the determinant of `A` with row
`j` replaced by the `i`-th standard basis vector. -/
def qadj {n : ℕ} (A : Matrix (Fin n) (Fin n) ℚ) : Matrix (Fin n) (Fin n) ℚ :=
  Matrix.of fun i j => qdet (A.updateRow j (Pi.single i 1))

/-- Computable matrix inverse over ℚ via the adjugate formula.  Whenever
`qdet A ≠ 0` this is the two-sided inverse of `A`; for singular `A` it is
an unspecified junk value (the value `0` — the Python code raises
`LinAlgError` there, which the embedding signals separately). -/
def qInv {n : ℕ} (A : Matrix (Fin n) (Fin n) ℚ) : Matrix (Fin n) (Fin n) ℚ :=
  (qdet A)⁻¹ • qadj A

/-- The read-only surface of a fitted `sklearn.mixture.GMM` with `K`
components over a `jd`-dimensional feature space. -/
structure GMM (K jd : ℕ) where
  means_ : Fin K → Fin jd → ℚ
  covars_ : Fin K → Matrix (Fin jd) (Fin jd) ℚ
  weights_ : Fin K → ℚ

/-- Embedding of the numpy basic slice `v[0:D]` of a width-`n` vector. -/
def sliceLo {n : ℕ} (D : ℕ) (h : D ≤ n) (v : Fin n → ℚ) : Fin D → ℚ :=
  fun j => v (Fin.castLE h j)

/-- Embedding of the numpy basic slice `v[D:]` of a width-`n` vector. -/
def sliceHi {n : ℕ} (D : ℕ) (v : Fin n → ℚ) : Fin (n - D) → ℚ :=
  fun j => v ⟨D + (j : ℕ), by omega⟩

/-- Split parameters held by a constructed `GMMMap` instance (attributes set
by `GMMMap.__init__`): per-component source/target means, the four
covariance blocks, and the residual covariances `self.D` of eq. (12).
`dx` is the width of the source block and `dy` the width of the target
block (`dx = jd / 2`, `dy = jd - jd / 2` for a joint dimension `jd`).
The attribute `self.px` is a source-marginal GMM whose parameters are
exactly (`weights`, `src_means`, `covarXX`), so it is not stored again. -/
structure GMMMapS (K dx dy : ℕ) where
  weights : Fin K → ℚ
  src_means : Fin K → Fin dx → ℚ
  tgt_means : Fin K → Fin dy → ℚ
  covarXX : Fin K → Matrix (Fin dx) (Fin dx) ℚ
  covarXY : Fin K → Matrix (Fin dx) (Fin dy) ℚ
  covarYX : Fin K → Matrix (Fin dy) (Fin dx) ℚ
  covarYY : Fin K → Matrix (Fin dy) (Fin dy) ℚ
  D : Fin K → Matrix (Fin dy) (Fin dy) ℚ

/-- The source-block covariance slice `gmm.covars_[:, :D, :D]` with
`D = jd / 2`, as computed by `GMMMap.__init__`. -/
def GMM.sliceXX {K jd : ℕ} (gmm : GMM K jd) (m : Fin K) :
    Matrix (Fin (jd / 2)) (Fin (jd / 2)) ℚ :=
  Matrix.of fun i j =>
    gmm.covars_ m (Fin.castLE (Nat.div_le_self jd 2) i)
      (Fin.castLE (Nat.div_le_self jd 2) j)

/-- Embedding of `GMMMap.__init__(gmm, swap)`.

Mirrors the Python line by line: `D = gmm.means_.shape[1] / 2` is Python 2
floor division; the mean and covariance blocks are contiguous slices at
index `D`; if `swap` is true the method reads the undefined attribute
`self.XY` and an `AttributeError` escapes (modelled by `Err.errXY`).
Then the eq. (12) loop runs over the components in order: for each `m`,
`np.linalg.solve(covarXX[m], covarXY[m])` raises `LinAlgError`
(`Err.errSingular`) when `covarXX[m]` is singular, and afterwards the
store of the `(jd - D, jd - D)`-shaped residual into row `m` of the
`(K, D, D)`-shaped zeros array `self.D` raises a numpy broadcast
`ValueError` (`Err.errShape`) when `jd - D ≠ D`, i.e. when the joint
dimension is odd.  First-failure semantics: with at least one component,
a singular `covarXX[0]` fails in the solve before the shape mismatch can
be noticed, an odd dimension then fails at the first store, and otherwise
the remaining components are checked for singularity; with zero
components the loop body never runs and construction succeeds.  There is
no explicit divisibility or validity check anywhere. -/
def GMMMap.init {K jd : ℕ} (gmm : GMM K jd) (swap : Bool) :
    Except Err (GMMMapS K (jd / 2) (jd - jd / 2)) :=
  let D := jd / 2
  let src_means := fun m => sliceLo D (Nat.div_le_self jd 2) (gmm.means_ m)
  let tgt_means := fun m => sliceHi D (gmm.means_ m)
  let covarXX := fun m => gmm.sliceXX m
  let covarXY := fun m => Matrix.of fun (i : Fin D) (j : Fin (jd - D)) =>
    gmm.covars_ m (Fin.castLE (Nat.div_le_self jd 2) i) ⟨D + (j : ℕ), by omega⟩
  let covarYX := fun m => Matrix.of fun (i : Fin (jd - D)) (j : Fin D) =>
    gmm.covars_ m ⟨D + (i : ℕ), by omega⟩ (Fin.castLE (Nat.div_le_self jd 2) j)
  let covarYY := fun m => Matrix.of fun (i : Fin (jd - D)) (j : Fin (jd - D)) =>
    gmm.covars_ m ⟨D + (i : ℕ), by omega⟩ ⟨D + (j : ℕ), by omega⟩
  let st : GMMMapS K D (jd - D) :=
    { weights := gmm.weights_
      src_means := src_means
      tgt_means := tgt_means
      covarXX := covarXX
      covarXY := covarXY
      covarYX := covarYX
      covarYY := covarYY
      D := fun m => covarYY m - covarYX m * (qInv (covarXX m) * covarXY m) }
  if swap then
    -- `self.covarYX, self.covarXY = self.XY, self.covarYX`: `self.XY` does
    -- not exist, so the constructor always dies with an AttributeError.
    .error .errXY
  else if hK : K = 0 then
    -- zero components: the eq. (12) loop body never runs
    .ok st
  else if qdet (covarXX ⟨0, Nat.pos_of_ne_zero hK⟩) = 0 then
    -- first iteration: np.linalg.solve on covarXX[0] fails
    .error .errSingular
  else if jd - D ≠ D then
    -- first iteration: self.D[0] = <(jd-D, jd-D) residual> does not
    -- broadcast into the (D, D) slot (odd joint dimension)
    .error .errShape
  else if h : ∀ m, qdet (covarXX m) ≠ 0 then
    .ok st
  else
    -- a later iteration's np.linalg.solve fails
    .error .errSingular

/-- Type of the abstracted multivariate normal density. -/
def Gauss : Type :=
  (n : ℕ) → (Fin n → ℚ) → Matrix (Fin n) (Fin n) ℚ → (Fin n → ℚ) → ℚ

/-- Posterior responsibility of component `m` for an observation `x` under
the mixture with the given weights, means and covariances: the embedding of
row `m` of `sklearn.mixture.GMM.predict_proba` — component weight times
component density, normalised over the components. -/
def responsibilities {K n : ℕ} (gauss : Gauss) (w : Fin K → ℚ)
    (mu : Fin K → Fin n → ℚ) (cv : Fin K → Matrix (Fin n) (Fin n) ℚ)
    (x : Fin n → ℚ) (m : Fin K) : ℚ :=
  w m * gauss n (mu m) (cv m) x / ∑ j, w j * gauss n (mu j) (cv j) x

/-- Embedding of `sklearn.mixture.GMM.predict` for one sample: the index of
the component with the largest posterior responsibility, the first such
index in case of ties (numpy argmax semantics).  `none` only for an empty
mixture. -/
def predict {K n : ℕ} (gauss : Gauss) (w : Fin K → ℚ)
    (mu : Fin K → Fin n → ℚ) (cv : Fin K → Matrix (Fin n) (Fin n) ℚ)
    (x : Fin n → ℚ) : Option (Fin K) :=
  List.argmax (responsibilities gauss w mu cv x) (List.finRange K)

/-- A numpy array that is either one- or two-dimensional, used where the
dimensionality of a Python value is itself part of a claim. -/
inductive NpArr where
  | vec : (n : ℕ) → (Fin n → ℚ) → NpArr
  | mat : (m n : ℕ) → Matrix (Fin m) (Fin n) ℚ → NpArr

/-- Number of dimensions (`numpy.ndim`) of an array. -/
def NpArr.ndim : NpArr → ℕ
  | .vec _ _ => 1
  | .mat _ _ _ => 2

/-- Shape (`numpy.shape`) of an array. -/
def NpArr.shape : NpArr → List ℕ
  | .vec n _ => [n]
  | .mat m n _ => [m, n]

/-- Split of `GMMMap.convert` into its error condition: the loop body runs
`np.linalg.solve(self.covarXX[m], src - self.src_means[m])`, which raises
`LinAlgError` exactly when some `covarXX[m]` is singular.  (The mixture is
nonempty by the `K + 1` index type; a fitted sklearn GMM has at least one
component.) -/
def GMMMap.convertErr {K dw : ℕ} (s : GMMMapS (K + 1) dw dw) : Option Err :=
  if ∀ m, qdet (s.covarXX m) ≠ 0 then none else some .errSingular

/-- Error-free core of `GMMMap.convert(src)`.  `E[m]` is eq. (11), the
conditional mean of component `m`; `posterior` is the `(1, K)` result of
`self.px.predict_proba(np.atleast_2d(src))`; the returned value is the
matrix product `posterior.dot(E)`, a two-dimensional `(1, D)` array. -/
def GMMMap.convertCore {K dw : ℕ} (gauss : Gauss) (s : GMMMapS (K + 1) dw dw)
    (src : Fin dw → ℚ) : NpArr :=
  let E : Matrix (Fin (K + 1)) (Fin dw) ℚ := Matrix.of fun m j =>
    s.tgt_means m j +
      (s.covarYX m *ᵥ (qInv (s.covarXX m) *ᵥ fun c => src c - s.src_means m c)) j
  let posterior : Matrix (Fin 1) (Fin (K + 1)) ℚ := Matrix.of fun _ m =>
    responsibilities gauss s.weights s.src_means s.covarXX src m
  .mat 1 dw (posterior * E)

/-- Embedding of `GMMMap.convert(src)` for an input vector of the model's
source width `dw`. -/
def GMMMap.convert {K dw : ℕ} (gauss : Gauss) (s : GMMMapS (K + 1) dw dw)
    (src : Fin dw → ℚ) : Except Err NpArr :=
  match convertErr s with
  | some e => .error e
  | none => .ok (convertCore gauss s src)

/-- Row `i` of the static block `w0` of frame `t`: a zero row of width
`D·T` with the slice assignment `w0[0:, t*D:(t+1)*D] = diags(ones(D))`
applied, i.e. a single `1` at column `t*D + i`. -/
def w0row (T d t : ℕ) (i : Fin d) : List ℚ :=
  List.ofFn fun c : Fin (d * T) => if (c : ℕ) = t * d + (i : ℕ) then 1 else 0

/-- Row `i` of the delta block `w1` of frame `t`: a zero row of width `D·T`
with `w1[0:, (t-1)*D:t*D] = diags(-0.5)` applied when `t - 1 ≥ 0` and
`w1[0:, (t+1)*D:(t+2)*D] = diags(0.5)` applied when `t + 1 < T` (the two
slices are disjoint, so the two assignments commute). -/
def w1row (T d t : ℕ) (i : Fin d) : List ℚ :=
  List.ofFn fun c : Fin (d * T) =>
    if 1 ≤ t ∧ (c : ℕ) = (t - 1) * d + (i : ℕ) then -(1 / 2)
    else if t + 1 < T ∧ (c : ℕ) = (t + 1) * d + (i : ℕ) then 1 / 2
    else 0

/-- The per-frame stack `W_t = vstack([w0, w1])` as a list of rows. -/
def Wt (T d t : ℕ) : List (List ℚ) :=
  (List.ofFn fun i : Fin d => w0row T d t i) ++
    (List.ofFn fun i : Fin d => w1row T d t i)

/-- All rows of `W`: the frame stacks `W_0, …, W_{T-1}` concatenated in
order (the iterated `scipy.sparse.vstack` of the source loop). -/
def Wrows (T d : ℕ) : List (List ℚ) :=
  (List.range T).flatMap (Wt T d)

/-- Conversion of a row-list into a `Matrix` (entries out of range are 0;
the relevant lists always have exact shape `(m, n)`). -/
def toMat (m n : ℕ) (L : List (List ℚ)) : Matrix (Fin m) (Fin n) ℚ :=
  Matrix.of fun i j => ((L.getD (i : ℕ) []).getD (j : ℕ) 0)

/-- Embedding of `TrajectoryGMMMap.__construct_weight_matrix(T, D)` as the
assembled matrix (the final `csr_matrix` conversion only changes the
storage format, and the trailing shape assert holds by the index types). -/
def construct_weight_matrix (T d : ℕ) : Matrix (Fin (2 * d * T)) (Fin (d * T)) ℚ :=
  toMat (2 * d * T) (d * T) (Wrows T d)

/-- The value bound to the attribute `self.D` of a trajectory mapper. -/
inductive DField (K dy : ℕ) where
  | perMixture : (Fin K → Matrix (Fin dy) (Fin dy) ℚ) → DField K dy
  | blockDiagonal : (n : ℕ) → Matrix (Fin n) (Fin n) ℚ → DField K dy

/-- The value bound to the attribute `self.E` of a trajectory mapper
(`absent` before the first `convert` call). -/
inductive EField where
  | absent : EField
  | present : (n : ℕ) → (Fin n → ℚ) → EField

/-- The cached consistency operator `self.W` together with the sequence
length and feature order it was built for. -/
structure WStore where
  Tw : ℕ
  dw : ℕ
  M : Matrix (Fin (2 * dw * Tw)) (Fin (dw * Tw)) ℚ

/-- Retrieve the cached operator at the shape `(2*d*T, d*T)`; `none` when
the cached operator was built for different dimensions (using it would
raise a shape `ValueError` in numpy). -/
def WStore.get (w : WStore) (T d : ℕ) :
    Option (Matrix (Fin (2 * d * T)) (Fin (d * T)) ℚ) :=
  if h : w.Tw = T ∧ w.dw = d then
    some (by rw [← h.1, ← h.2]; exact w.M)
  else none

/-- Global-variance model attributes (`self.gv_mean`, `self.gv_covar`,
`self.Pv`), present only when a GV model was supplied at construction. -/
structure GVParams (dg : ℕ) where
  gv_mean : Fin dg → ℚ
  gv_covar : Matrix (Fin dg) (Fin dg) ℚ
  Pv : Matrix (Fin dg) (Fin dg) ℚ

/-- Attributes of a `TrajectoryGMMMap` instance. -/
structure TrajState (K dx dy dg : ℕ) where
  weights : Fin K → ℚ
  src_means : Fin K → Fin dx → ℚ
  tgt_means : Fin K → Fin dy → ℚ
  covarXX : Fin K → Matrix (Fin dx) (Fin dx) ℚ
  covarXY : Fin K → Matrix (Fin dx) (Fin dy) ℚ
  covarYX : Fin K → Matrix (Fin dy) (Fin dx) ℚ
  covarYY : Fin K → Matrix (Fin dy) (Fin dy) ℚ
  D : DField K dy
  E : EField
  T : ℕ
  W : WStore
  gv : Option (GVParams dg)

/-- Embedding of `TrajectoryGMMMap.__init__(gmm, T, gv, swap)`: runs
`GMMMap.__init__` (whose errors propagate), computes
`D = gmm.means_.shape[1] / 4` (Python 2 floor division, no divisibility
check), builds and caches the consistency operator for `(T, D)` — with
`T = 0` the assembly loop of `__construct_weight_matrix` never assigns
`self.W`, so the final `csr_matrix(self.W)` reads the never-assigned
attribute and raises `AttributeError` (`Err.errW`) — and, when a GV model
is supplied, stores its first component's mean and covariance and the
precision `Pv = np.linalg.inv(gv.covars_[0])` (raising `LinAlgError` on a
singular GV covariance). -/
def TrajectoryGMMMap.init {K jd dg : ℕ} (gmm : GMM K jd) (T : ℕ) (gv : Option (GMM 1 dg))
    (swap : Bool) : Except Err (TrajState K (jd / 2) (jd - jd / 2) dg) :=
  match GMMMap.init gmm swap with
  | .error e => .error e
  | .ok base =>
    let d := jd / 4
    if T = 0 then .error .errW else
    let st : TrajState K (jd / 2) (jd - jd / 2) dg :=
      { weights := base.weights
        src_means := base.src_means
        tgt_means := base.tgt_means
        covarXX := base.covarXX
        covarXY := base.covarXY
        covarYX := base.covarYX
        covarYY := base.covarYY
        D := .perMixture base.D
        E := .absent
        T := T
        W := ⟨T, d, construct_weight_matrix T d⟩
        gv := none }
    match gv with
    | none => .ok st
    | some g =>
        if qdet (g.covars_ 0) = 0 then .error .errSingular
        else .ok { st with gv := some ⟨g.means_ 0, g.covars_ 0, qInv (g.covars_ 0)⟩ }

/-- Embedding of `scipy.sparse.block_diag` for `T` square blocks of width
`n`: entry `(r, c)` lies in block `r / n` when `r` and `c` fall in the
same block, and is 0 otherwise. -/
def blockDiag (T n : ℕ) (B : Fin T → Matrix (Fin n) (Fin n) ℚ) :
    Matrix (Fin (n * T)) (Fin (n * T)) ℚ :=
  Matrix.of fun r c =>
    if h : (r : ℕ) / n = (c : ℕ) / n ∧ (r : ℕ) / n < T ∧
        (r : ℕ) % n < n ∧ (c : ℕ) % n < n then
      B ⟨(r : ℕ) / n, h.2.1⟩ ⟨(r : ℕ) % n, h.2.2.1⟩ ⟨(c : ℕ) % n, h.2.2.2⟩
    else 0

/-- Embedding of row-major `numpy.flatten` of a `(T, n)` array. -/
def flat (T n : ℕ) (M : Matrix (Fin T) (Fin n) ℚ) : Fin (n * T) → ℚ :=
  fun r =>
    if h : (r : ℕ) / n < T ∧ (r : ℕ) % n < n then M ⟨_, h.1⟩ ⟨_, h.2⟩ else 0

/-- Embedding of row-major `numpy.reshape((T, n))` of a width-`n*T`
vector. -/
def reshape (T n : ℕ) (v : Fin (n * T) → ℚ) : Matrix (Fin T) (Fin n) ℚ :=
  Matrix.of fun t j =>
    if h : (t : ℕ) * n + (j : ℕ) < n * T then v ⟨_, h⟩ else 0

/-- Eq. (23): the residual covariance
`covarYY[m] - covarYX[m] ⬝ solve(covarXX[m], covarXY[m])` computed per
assigned component inside `TrajectoryGMMMap.convert`. -/
def TrajectoryGMMMap.residualCovar {K dx dy dg : ℕ} (s : TrajState K dx dy dg) (m : Fin K) :
    Matrix (Fin dy) (Fin dy) ℚ :=
  s.covarYY m - s.covarYX m * (qInv (s.covarXX m) * s.covarXY m)

/-- Eq. (37): the suboptimum mixture sequence
`optimum_mix = self.px.predict(src)` — per frame, the component of maximal
posterior responsibility under the source marginal. -/
def TrajectoryGMMMap.optimum_mix {K d dg T : ℕ} (gauss : Gauss)
    (s : TrajState (K + 1) (2 * d) (2 * d) dg)
    (src : Matrix (Fin T) (Fin (2 * d)) ℚ) : Fin T → Fin (K + 1) :=
  fun t => (predict gauss s.weights s.src_means s.covarXX (fun c => src t c)).getD 0

/-- Everything `TrajectoryGMMMap.convert` leaves behind: the updated
instance attributes (`state`), whether the branch rebuilding `W` was taken
(`rebuilt`), the per-frame mixture assignment, the intermediate quantities
`E` (per-frame estimates, eq. 40), `P` (block-diagonal precision, eq. 41,
the matrix the code stores into `self.D`), the consistency operator `W`
used, and the returned trajectory `y`. -/
structure TrajectoryGMMMap.TrajResult (K d dg T : ℕ) where
  state : TrajState K (2 * d) (2 * d) dg
  rebuilt : Bool
  optimum_mix : Fin T → Fin K
  E : Matrix (Fin T) (Fin (2 * d)) ℚ
  P : Matrix (Fin (2 * d * T)) (Fin (2 * d * T)) ℚ
  W : Matrix (Fin (2 * d * T)) (Fin (d * T)) ℚ
  y : Matrix (Fin T) (Fin d) ℚ

/-- Error condition of `TrajectoryGMMMap.convert`: `LinAlgError` when the
source covariance of an assigned component is singular
(`np.linalg.solve`, eq. 40 loop) or a per-frame residual covariance is
singular (`np.linalg.inv`, eq. 41 loop); shape `ValueError` when the
cached `W` is reused (`T == self.T`) but was last built for different
dimensions.  (`scipy.sparse.linalg.spsolve` on a singular system only
warns and yields junk, so it contributes no error case.) -/
def TrajectoryGMMMap.convertErr {K d dg T : ℕ} (gauss : Gauss)
    (s : TrajState (K + 1) (2 * d) (2 * d) dg)
    (src : Matrix (Fin T) (Fin (2 * d)) ℚ) : Option Err :=
  if ∀ t : Fin T, qdet (s.covarXX (optimum_mix gauss s src t)) ≠ 0 ∧
      qdet (residualCovar s (optimum_mix gauss s src t)) ≠ 0 then
    if s.T = T ∧ (s.W.get T d).isNone then some .errShape else none
  else some .errSingular

/-- Error-free core of `TrajectoryGMMMap.convert(src)` for a source
sequence of `T` frames of width `2·D` (the Python code sets
`D = src.shape[1] / 2`).  Follows the source line by line:

* `if T != self.T: self.__construct_weight_matrix(T, D)` — note that
  `self.T` is not updated;
* `optimum_mix = self.px.predict(src)` (eq. 37);
* `self.E` is filled per frame by eq. (22) and flattened (eq. 40);
* `self.D` is filled per frame with the inverted residual covariance
  (eq. 23/41) and assembled block-diagonally;
* `covar = W.T ⬝ (D ⬝ W)`; `y = spsolve(covar, W.T ⬝ (D ⬝ E))`, reshaped
  to `(T, D)`. -/
def TrajectoryGMMMap.convertCore {K d dg T : ℕ} (gauss : Gauss)
    (s : TrajState (K + 1) (2 * d) (2 * d) dg)
    (src : Matrix (Fin T) (Fin (2 * d)) ℚ) : TrajResult (K + 1) d dg T :=
  let WW : WStore × Matrix (Fin (2 * d * T)) (Fin (d * T)) ℚ :=
    if T = s.T then (s.W, (s.W.get T d).getD (construct_weight_matrix T d))
    else (⟨T, d, construct_weight_matrix T d⟩, construct_weight_matrix T d)
  let mix := optimum_mix gauss s src
  let Em : Matrix (Fin T) (Fin (2 * d)) ℚ := Matrix.of fun t j =>
    s.tgt_means (mix t) j +
      (s.covarYX (mix t) *ᵥ
        (qInv (s.covarXX (mix t)) *ᵥ fun c => src t c - s.src_means (mix t) c)) j
  let Evec := flat T (2 * d) Em
  let Pm := blockDiag T (2 * d) fun t => qInv (residualCovar s (mix t))
  let covar := WW.2ᵀ * (Pm * WW.2)
  let rhs := WW.2ᵀ *ᵥ (Pm *ᵥ Evec)
  let y := reshape T d (qInv covar *ᵥ rhs)
  { state := { s with
      D := .blockDiagonal (2 * d * T) Pm
      E := .present (2 * d * T) Evec
      W := WW.1 }
    rebuilt := T != s.T
    optimum_mix := mix
    E := Em
    P := Pm
    W := WW.2
    y := y }

/-- Embedding of `TrajectoryGMMMap.convert(src)`. -/
def TrajectoryGMMMap.convert {K d dg T : ℕ} (gauss : Gauss)
    (s : TrajState (K + 1) (2 * d) (2 * d) dg)
    (src : Matrix (Fin T) (Fin (2 * d)) ℚ) :
    Except Err (TrajResult (K + 1) d dg T) :=
  match convertErr gauss s src with
  | some e => .error e
  | none => .ok (convertCore gauss s src)

/-- Eq. (55): `TrajectoryGMMMap.__gv_grad(y)`, the gradient of the
likelihood with regard to the global variance of the current trajectory
estimate (`np.var` with denominator `T`). -/
def TrajectoryGMMMap.gv_grad {d T : ℕ} (Pv : Matrix (Fin d) (Fin d) ℚ) (gv_mean : Fin d → ℚ)
    (y : Matrix (Fin T) (Fin d) ℚ) : Matrix (Fin T) (Fin d) ℚ :=
  let y_mean : Fin d → ℚ := fun j => (∑ u, y u j) / (T : ℚ)
  let gv : Fin d → ℚ := fun j => (∑ u, (y u j - y_mean j) ^ 2) / (T : ℚ)
  Matrix.of fun t j =>
    (-2 / (T : ℚ)) * ((Pvᵀ *ᵥ fun i => gv i - gv_mean i) j) * (y t j - y_mean j)

/-- The gradient-descent loop of `convert_with_gv` (eq. 57): each epoch
reads `self.Pv` — raising `AttributeError` (`Err.errPv`) when no GV model
was supplied at construction — and updates
`y ← y + learning_rate · (omega · grad_y + gv_grad(y))`.  The diagnostic
`print` of the gradient norm is a console side effect and is not
modelled. -/
def TrajectoryGMMMap.gvLoop {K d T : ℕ} (r : TrajResult (K + 1) d d T) (om lr : ℚ) :
    ℕ → Matrix (Fin T) (Fin d) ℚ → Except Err (Matrix (Fin T) (Fin d) ℚ)
  | 0, y => .ok y
  | n + 1, y =>
    match r.state.gv with
    | none => .error .errPv
    | some gvp =>
      let grad_y : Fin (d * T) → ℚ :=
        -(r.Wᵀ *ᵥ (r.P *ᵥ (r.W *ᵥ flat T d y))) + r.Wᵀ *ᵥ (r.P *ᵥ flat T (2 * d) r.E)
      let grad : Fin (d * T) → ℚ :=
        fun i => om * grad_y i + flat T d (gv_grad gvp.Pv gvp.gv_mean y) i
      gvLoop r om lr n (y + lr • reshape T d grad)

/-- Embedding of `TrajectoryGMMMap.convert_with_gv(src, epoches,
learning_rate)`: initialises `y` by `self.convert(src)` (whose errors
propagate, and which rebinds `self.D`, `self.E`, `self.W`), computes
`omega = 1 / (2 T)` and runs the gradient loop for `epoches` epochs.
Returns the final instance attributes together with the returned
trajectory. -/
def TrajectoryGMMMap.convert_with_gv {K d T : ℕ} (gauss : Gauss)
    (s : TrajState (K + 1) (2 * d) (2 * d) d)
    (src : Matrix (Fin T) (Fin (2 * d)) ℚ) (epoches : ℕ) (learning_rate : ℚ) :
    Except Err (TrajState (K + 1) (2 * d) (2 * d) d × Matrix (Fin T) (Fin d) ℚ) :=
  match convertErr gauss s src with
  | some e => .error e
  | none =>
    let r := convertCore gauss s src
    let om : ℚ := 1 / (2 * (T : ℚ))
    match gvLoop r om learning_rate epoches r.y with
    | .error e => .error e
    | .ok y => .ok (r.state, y)

/-- A concrete density oracle (constant 1). -/
def gauss1 : Gauss := fun _ _ _ _ => 1

/-- A concrete one-component frame-level model of source width 1 with
identity source covariance and vanishing cross blocks. -/
def s0b : GMMMapS 1 1 1 where
  weights := fun _ => 1
  src_means := fun _ _ => 0
  tgt_means := fun _ _ => 0
  covarXX := fun _ => 1
  covarXY := fun _ => 0
  covarYX := fun _ => 0
  covarYY := fun _ => 1
  D := fun _ => 1

/-- A concrete width-1 input vector. -/
def x0 : Fin 1 → ℚ := fun _ => 0

/-- A concrete one-component trajectory mapper state: static order 1
(split widths 2), identity covariance blocks, zero cross blocks, cached
operator built for `T = 1`, no GV model. -/
def s5 : TrajState (0 + 1) (2 * 1) (2 * 1) 1 where
  weights := fun _ => 1
  src_means := fun _ _ => 0
  tgt_means := fun _ _ => 0
  covarXX := fun _ => 1
  covarXY := fun _ => 0
  covarYX := fun _ => 0
  covarYY := fun _ => 1
  D := .perMixture fun _ => 1
  E := .absent
  T := 1
  W := ⟨1, 1, construct_weight_matrix 1 1⟩
  gv := none

/-- A concrete two-frame input sequence (all zeros, width 2). -/
def src5 : Matrix (Fin 2) (Fin (2 * 1)) ℚ := 0

/-- A variant of the concrete instance `s5` holding a GV model. -/
def s9 : TrajState (0 + 1) (2 * 1) (2 * 1) 1 :=
  { s5 with gv := some ⟨fun _ => 0, 1, qInv 1⟩ }

/-- A concrete one-frame input sequence (all zeros, width 2). -/
def src1 : Matrix (Fin 1) (Fin (2 * 1)) ℚ := 0

/-! ## Theorems -/

theorem qdet_eq_det : ∀ {n : ℕ} (A : Matrix (Fin n) (Fin n) ℚ), qdet A = A.det
  | 0, A => by simp [qdet, Matrix.det_fin_zero]
  | n + 1, A => by
      rw [Matrix.det_succ_row_zero]
      simp only [qdet]
      exact Finset.sum_congr rfl fun j _ => by rw [qdet_eq_det]

theorem qadj_eq_adjugate {n : ℕ} (A : Matrix (Fin n) (Fin n) ℚ) :
    qadj A = A.adjugate := by
  ext i j
  rw [Matrix.adjugate_apply]
  simp only [qadj, Matrix.of_apply, qdet_eq_det]

theorem qInv_mul {n : ℕ} (A : Matrix (Fin n) (Fin n) ℚ) (h : qdet A ≠ 0) :
    qInv A * A = 1 := by
  rw [qdet_eq_det] at h
  rw [qInv, qadj_eq_adjugate, qdet_eq_det, Matrix.smul_mul, Matrix.adjugate_mul,
    smul_smul, inv_mul_cancel₀ h, one_smul]

theorem mul_qInv {n : ℕ} (A : Matrix (Fin n) (Fin n) ℚ) (h : qdet A ≠ 0) :
    A * qInv A = 1 := by
  rw [qdet_eq_det] at h
  rw [qInv, qadj_eq_adjugate, qdet_eq_det, Matrix.mul_smul, Matrix.mul_adjugate,
    smul_smul, inv_mul_cancel₀ h, one_smul]

theorem qInv_mulVec_solves {n : ℕ} (A : Matrix (Fin n) (Fin n) ℚ)
    (b : Fin n → ℚ) (h : qdet A ≠ 0) : A *ᵥ (qInv A *ᵥ b) = b := by
  rw [Matrix.mulVec_mulVec, mul_qInv A h, Matrix.one_mulVec]

theorem qdet_one {n : ℕ} : qdet (1 : Matrix (Fin n) (Fin n) ℚ) = 1 := by
  rw [qdet_eq_det, Matrix.det_one]

theorem qInv_one {n : ℕ} : qInv (1 : Matrix (Fin n) (Fin n) ℚ) = 1 := by
  rw [qInv, qadj_eq_adjugate, Matrix.adjugate_one, qdet_one]
  simp

theorem Wt_length (T d t : ℕ) : (Wt T d t).length = 2 * d := by
  simp [Wt, List.length_ofFn]
  omega

/-- Length of a uniform-block flat-mapped list. -/
theorem length_flatMap_uniform {α : Type} (f : ℕ → List α) (B : ℕ)
    (hB : ∀ t, (f t).length = B) :
    ∀ n, ((List.range n).flatMap f).length = B * n
  | 0 => by simp
  | n + 1 => by
      rw [List.range_succ, List.flatMap_append,
        List.length_append, length_flatMap_uniform f B hB n]
      simp [hB, Nat.mul_succ]

theorem Wrows_length (T d : ℕ) : (Wrows T d).length = 2 * d * T :=
  length_flatMap_uniform (Wt T d) (2 * d) (Wt_length T d) T

/-- Indexing into a uniform-block flat-mapped list: entry `B*t + i` lies in
block `t` at offset `i`. -/
theorem getD_flatMap_uniform {α : Type} (f : ℕ → List α) (B : ℕ)
    (hB : ∀ t, (f t).length = B) (d0 : α) :
    ∀ n t i, t < n → i < B →
      ((List.range n).flatMap f).getD (B * t + i) d0 = (f t).getD i d0
  | 0, t, i, ht, _ => absurd ht (Nat.not_lt_zero t)
  | n + 1, t, i, ht, hi => by
      rw [List.range_succ, List.flatMap_append]
      rcases Nat.lt_or_ge t n with h | h
      · rw [List.getD_append _ _ _ _
          (by rw [length_flatMap_uniform f B hB n]; calc
                B * t + i < B * t + B := by omega
                _ = B * (t + 1) := by ring
                _ ≤ B * n := Nat.mul_le_mul_left B h)]
        exact getD_flatMap_uniform f B hB d0 n t i h hi
      · have ht' : t = n := by omega
        subst ht'
        rw [List.getD_append_right _ _ _ _
          (by rw [length_flatMap_uniform f B hB t]; omega)]
        rw [length_flatMap_uniform f B hB t]
        have : B * t + i - B * t = i := by omega
        rw [this, List.flatMap_singleton]

/-- Row `2*d*t + i` of `Wrows` is row `i` of the frame stack `W_t`. -/
theorem Wrows_getD (T d t i : ℕ) (ht : t < T) (hi : i < 2 * d) :
    (Wrows T d).getD (2 * d * t + i) [] = (Wt T d t).getD i [] :=
  getD_flatMap_uniform (Wt T d) (2 * d) (Wt_length T d) [] T t i ht hi

theorem flat_reshape (T n : ℕ) (v : Fin (n * T) → ℚ) :
    flat T n (reshape T n v) = v := by
  funext r
  have hr := r.isLt
  have hn : 0 < n := by
    rcases Nat.eq_zero_or_pos n with h | h
    · have hnT : n * T = 0 := by rw [h]; exact Nat.zero_mul T
      omega
    · exact h
  have hdiv : (r : ℕ) / n < T := Nat.div_lt_of_lt_mul hr
  have hmod : (r : ℕ) % n < n := Nat.mod_lt _ hn
  have hidx : ((r : ℕ) / n) * n + (r : ℕ) % n = (r : ℕ) := by
    rw [Nat.mul_comm]
    exact Nat.div_add_mod (r : ℕ) n
  simp only [flat, reshape, Matrix.of_apply]
  rw [dif_pos ⟨hdiv, hmod⟩,
    dif_pos (show ((r : ℕ) / n) * n + (r : ℕ) % n < n * T by rw [hidx]; exact hr)]
  exact congrArg v (Fin.ext hidx)

theorem Wt_getD_lo (T d : ℕ) (t : ℕ) (i : Fin d) :
    (Wt T d t).getD (i : ℕ) [] = w0row T d t i := by
  rw [Wt, List.getD_append _ _ _ _ (by rw [List.length_ofFn]; exact i.isLt),
    List.getD_eq_getElem _ _ (by rw [List.length_ofFn]; exact i.isLt),
    List.getElem_ofFn]

theorem Wt_getD_hi (T d : ℕ) (t : ℕ) (i : Fin d) :
    (Wt T d t).getD (d + (i : ℕ)) [] = w1row T d t i := by
  have hd : ((List.ofFn fun i : Fin d => w0row T d t i)).length = d := by
    rw [List.length_ofFn]
  rw [Wt, List.getD_append_right _ _ _ _ (by rw [hd]; omega), hd]
  have hsub : d + (i : ℕ) - d = (i : ℕ) := by omega
  rw [hsub, List.getD_eq_getElem _ _ (by rw [List.length_ofFn]; exact i.isLt),
    List.getElem_ofFn]

theorem w0row_getD (T d : ℕ) (t : ℕ) (i : Fin d) (c : Fin (d * T)) :
    (w0row T d t i).getD (c : ℕ) 0 =
      if (c : ℕ) = t * d + (i : ℕ) then 1 else 0 := by
  rw [w0row, List.getD_eq_getElem _ _ (by rw [List.length_ofFn]; exact c.isLt),
    List.getElem_ofFn]

theorem w1row_getD (T d : ℕ) (t : ℕ) (i : Fin d) (c : Fin (d * T)) :
    (w1row T d t i).getD (c : ℕ) 0 =
      if 1 ≤ t ∧ (c : ℕ) = (t - 1) * d + (i : ℕ) then -(1 / 2)
      else if t + 1 < T ∧ (c : ℕ) = (t + 1) * d + (i : ℕ) then 1 / 2
      else 0 := by
  rw [w1row, List.getD_eq_getElem _ _ (by rw [List.length_ofFn]; exact c.isLt),
    List.getElem_ofFn]

/-- C3: the consistency operator built by
`TrajectoryGMMMap.__construct_weight_matrix` has `2·D·T` rows of width
`D·T`; within each row block `t` the static part is the `D × D` identity
at column block `t`, and the delta part is `−0.5·I` at column block
`t − 1` when `t − 1 ≥ 0` and `+0.5·I` at column block `t + 1` when
`t + 1 < T`, and zero everywhere else.  In particular for `T = 3, D = 2`
the shape is `(12, 6)`, row block 0's delta part contains only the `+0.5`
block and row block 2's delta part contains only the `−0.5` block (the
instances of the entry formula at `t = 0` and `t = 2`). -/
theorem C3_weight_matrix_structure (T d : ℕ) (t : Fin T) (i : Fin d)
    (c : Fin (d * T)) :
    (Wrows T d).length = 2 * d * T ∧
    (∀ row ∈ Wrows T d, row.length = d * T) ∧
    (Wrows 3 2).length = 12 ∧
    (∀ row ∈ Wrows 3 2, row.length = 6) ∧
    ((Wrows T d).getD (2 * d * (t : ℕ) + (i : ℕ)) []).getD (c : ℕ) 0 =
      (if (c : ℕ) = (t : ℕ) * d + (i : ℕ) then 1 else 0) ∧
    ((Wrows T d).getD (2 * d * (t : ℕ) + d + (i : ℕ)) []).getD (c : ℕ) 0 =
      (if 1 ≤ (t : ℕ) ∧ (c : ℕ) = ((t : ℕ) - 1) * d + (i : ℕ) then -(1 / 2)
       else if (t : ℕ) + 1 < T ∧ (c : ℕ) = ((t : ℕ) + 1) * d + (i : ℕ) then 1 / 2
       else 0) := by
  have hrowlen : ∀ Tv dv : ℕ, ∀ row ∈ Wrows Tv dv, row.length = dv * Tv := by
    intro Tv dv row hrow
    rw [Wrows] at hrow
    obtain ⟨u, _, hrow⟩ := List.mem_flatMap.mp hrow
    rw [Wt] at hrow
    rcases List.mem_append.mp hrow with h | h <;>
      obtain ⟨i', hi'⟩ := Set.mem_range.mp ((List.mem_ofFn _ _).mp h) <;> rw [← hi']
    · rw [w0row, List.length_ofFn]
    · rw [w1row, List.length_ofFn]
  refine ⟨Wrows_length T d, hrowlen T d, Wrows_length 3 2, hrowlen 3 2, ?_, ?_⟩
  · rw [Wrows, getD_flatMap_uniform (Wt T d) (2 * d) (Wt_length T d) []
      T (t : ℕ) (i : ℕ) t.isLt (by have := i.isLt; omega)]
    rw [Wt_getD_lo, w0row_getD]
  · rw [Nat.add_assoc, Wrows, getD_flatMap_uniform (Wt T d) (2 * d)
      (Wt_length T d) [] T (t : ℕ) (d + (i : ℕ)) t.isLt (by have := i.isLt; omega)]
    rw [Wt_getD_hi, w1row_getD]

theorem responsibilities_le_predict {K n : ℕ} (gauss : Gauss)
    (w : Fin (K + 1) → ℚ) (mu : Fin (K + 1) → Fin n → ℚ)
    (cv : Fin (K + 1) → Matrix (Fin n) (Fin n) ℚ) (x : Fin n → ℚ)
    (k : Fin (K + 1)) :
    responsibilities gauss w mu cv x k ≤
      responsibilities gauss w mu cv x ((predict gauss w mu cv x).getD 0) := by
  obtain ⟨m, hm⟩ : ∃ m, predict gauss w mu cv x = some m := by
    cases h : predict gauss w mu cv x with
    | none =>
        have : List.finRange (K + 1) = [] := List.argmax_eq_none.mp h
        have hlen := congrArg List.length this
        rw [List.length_finRange] at hlen
        exact absurd hlen (by simp)
    | some m => exact ⟨m, rfl⟩
  rw [hm]
  exact List.le_of_mem_argmax (List.mem_finRange k) hm

theorem TrajectoryGMMMap.convertErr_none_seq {K d dg T : ℕ} (gauss : Gauss)
    (s : TrajState (K + 1) (2 * d) (2 * d) dg)
    (src : Matrix (Fin T) (Fin (2 * d)) ℚ)
    (h : convertErr gauss s src = none) :
    ∀ t : Fin T, qdet (s.covarXX (optimum_mix gauss s src t)) ≠ 0 ∧
      qdet (residualCovar s (optimum_mix gauss s src t)) ≠ 0 := by
  rw [convertErr] at h
  split at h
  · assumption
  · exact absurd h (by simp)

theorem TrajectoryGMMMap.convertCore_optimum_mix {K d dg T : ℕ} (gauss : Gauss)
    (s : TrajState (K + 1) (2 * d) (2 * d) dg)
    (src : Matrix (Fin T) (Fin (2 * d)) ℚ) :
    (convertCore gauss s src).optimum_mix = optimum_mix gauss s src := rfl

theorem TrajectoryGMMMap.convertCore_P {K d dg T : ℕ} (gauss : Gauss)
    (s : TrajState (K + 1) (2 * d) (2 * d) dg)
    (src : Matrix (Fin T) (Fin (2 * d)) ℚ) :
    (convertCore gauss s src).P =
      blockDiag T (2 * d)
        (fun t => qInv (residualCovar s (optimum_mix gauss s src t))) := rfl

theorem TrajectoryGMMMap.convertCore_E {K d dg T : ℕ} (gauss : Gauss)
    (s : TrajState (K + 1) (2 * d) (2 * d) dg)
    (src : Matrix (Fin T) (Fin (2 * d)) ℚ) :
    (convertCore gauss s src).E = Matrix.of fun t j =>
      s.tgt_means (optimum_mix gauss s src t) j +
        (s.covarYX (optimum_mix gauss s src t) *ᵥ
          (qInv (s.covarXX (optimum_mix gauss s src t)) *ᵥ
            fun c => src t c - s.src_means (optimum_mix gauss s src t) c)) j := rfl

theorem TrajectoryGMMMap.convertCore_y {K d dg T : ℕ} (gauss : Gauss)
    (s : TrajState (K + 1) (2 * d) (2 * d) dg)
    (src : Matrix (Fin T) (Fin (2 * d)) ℚ) :
    (convertCore gauss s src).y = reshape T d
      (qInv ((convertCore gauss s src).Wᵀ *
          ((convertCore gauss s src).P * (convertCore gauss s src).W)) *ᵥ
        ((convertCore gauss s src).Wᵀ *ᵥ
          ((convertCore gauss s src).P *ᵥ flat T (2 * d) (convertCore gauss s src).E))) := rfl

theorem TrajectoryGMMMap.convert_ok {K d dg T : ℕ} (gauss : Gauss)
    (s : TrajState (K + 1) (2 * d) (2 * d) dg)
    (src : Matrix (Fin T) (Fin (2 * d)) ℚ) (r : TrajResult (K + 1) d dg T)
    (hr : convert gauss s src = .ok r) :
    convertErr gauss s src = none ∧ r = convertCore gauss s src := by
  rw [convert] at hr
  split at hr
  · exact absurd hr (by simp)
  · exact ⟨by assumption, by injection hr with h; exact h.symm⟩

/-- C1: for every input sequence accepted by `TrajectoryGMMMap.convert`
(result `r`), each frame `t` is assigned the mixture component of maximal
posterior responsibility under the source marginal; the precision matrix
`P` used is the block-diagonal stack of the inverted per-frame residual
covariances at the assigned components (`P`'s blocks are genuine inverses:
the residuals are nonsingular on the accepted path); the estimate stack
`E` holds the per-frame conditional means; and, provided the assembled
system matrix `Wᵀ P W` is nonsingular, the flattening of the returned
`T × D` trajectory `r.y` solves the linear system
`(Wᵀ P W) y = Wᵀ P E`. -/
theorem C1_trajectory_is_system_solution {K d dg T : ℕ} (gauss : Gauss)
    (s : TrajState (K + 1) (2 * d) (2 * d) dg)
    (src : Matrix (Fin T) (Fin (2 * d)) ℚ)
    (r : TrajectoryGMMMap.TrajResult (K + 1) d dg T)
    (hr : TrajectoryGMMMap.convert gauss s src = .ok r)
    (hdet : qdet (r.Wᵀ * (r.P * r.W)) ≠ 0) :
    (∀ t : Fin T, ∀ k : Fin (K + 1),
      responsibilities gauss s.weights s.src_means s.covarXX (fun c => src t c) k ≤
        responsibilities gauss s.weights s.src_means s.covarXX (fun c => src t c)
          (r.optimum_mix t)) ∧
    r.P = blockDiag T (2 * d)
      (fun t => qInv (TrajectoryGMMMap.residualCovar s (r.optimum_mix t))) ∧
    (∀ t : Fin T,
      TrajectoryGMMMap.residualCovar s (r.optimum_mix t) *
        qInv (TrajectoryGMMMap.residualCovar s (r.optimum_mix t)) = 1) ∧
    r.E = (Matrix.of fun t j =>
      s.tgt_means (r.optimum_mix t) j +
        (s.covarYX (r.optimum_mix t) *ᵥ
          (qInv (s.covarXX (r.optimum_mix t)) *ᵥ
            fun c => src t c - s.src_means (r.optimum_mix t) c)) j) ∧
    (r.Wᵀ * (r.P * r.W)) *ᵥ flat T d r.y =
      r.Wᵀ *ᵥ (r.P *ᵥ flat T (2 * d) r.E) := by
  obtain ⟨herr, hrc⟩ := TrajectoryGMMMap.convert_ok gauss s src r hr
  subst hrc
  refine ⟨?_, TrajectoryGMMMap.convertCore_P gauss s src, ?_, ?_, ?_⟩
  · intro t k
    rw [TrajectoryGMMMap.convertCore_optimum_mix]
    exact responsibilities_le_predict gauss s.weights s.src_means s.covarXX _ k
  · intro t
    rw [TrajectoryGMMMap.convertCore_optimum_mix]
    exact mul_qInv _ (TrajectoryGMMMap.convertErr_none_seq gauss s src herr t).2
  · rw [TrajectoryGMMMap.convertCore_E, TrajectoryGMMMap.convertCore_optimum_mix]
  · rw [TrajectoryGMMMap.convertCore_y, flat_reshape]
    exact qInv_mulVec_solves _ _ hdet

theorem GMMMap.convertErr_none_frame {K dw : ℕ} (s : GMMMapS (K + 1) dw dw)
    (h : GMMMap.convertErr s = none) : ∀ m, qdet (s.covarXX m) ≠ 0 := by
  rw [GMMMap.convertErr] at h
  split at h
  · assumption
  · exact absurd h (by simp)

/-- C2: for every fitted mixture model with nonsingular source covariances
(the inputs `GMMMap.convert` accepts), the returned array is the single
row `y = Σ_k p(k|x) · e_k` with
`e_k = μy_k + Σyx_k Σxx_k⁻¹ (x − μx_k)` — the posterior-weighted sum of
the per-component conditional means; and for every model with exactly one
component (whose weighted density at `x` does not vanish) the row is
exactly the linear regression `μy + Σyx Σxx⁻¹ (x − μx)`, for every input
`x` (no restriction on its magnitude; `Σxx⁻¹` is certified to be a true
inverse by the first conjunct of the second part). -/
theorem C2_frame_convert_posterior_mixture :
    (∀ (K dw : ℕ) (gauss : Gauss) (s : GMMMapS (K + 1) dw dw) (x : Fin dw → ℚ),
      GMMMap.convertErr s = none →
      GMMMap.convert gauss s x = .ok (.mat 1 dw (Matrix.of fun _ j =>
        ∑ m, responsibilities gauss s.weights s.src_means s.covarXX x m *
          (s.tgt_means m j +
            (s.covarYX m *ᵥ (qInv (s.covarXX m) *ᵥ
              fun c => x c - s.src_means m c)) j)))) ∧
    (∀ (dw : ℕ) (gauss : Gauss) (s : GMMMapS 1 dw dw) (x : Fin dw → ℚ),
      GMMMap.convertErr s = none →
      s.weights 0 * gauss dw (s.src_means 0) (s.covarXX 0) x ≠ 0 →
      qInv (s.covarXX 0) * s.covarXX 0 = 1 ∧
      GMMMap.convert gauss s x = .ok (.mat 1 dw (Matrix.of fun _ j =>
        s.tgt_means 0 j +
          (s.covarYX 0 *ᵥ (qInv (s.covarXX 0) *ᵥ
            fun c => x c - s.src_means 0 c)) j))) := by
  constructor
  · intro K dw gauss s x herr
    simp only [GMMMap.convert, herr]
    refine congrArg Except.ok ?_
    rw [GMMMap.convertCore]
    refine congrArg (NpArr.mat 1 dw) ?_
    ext i j
    simp [Matrix.mul_apply]
  · intro dw gauss s x herr hg
    refine ⟨qInv_mul _ (GMMMap.convertErr_none_frame s herr 0), ?_⟩
    simp only [GMMMap.convert, herr]
    refine congrArg Except.ok ?_
    rw [GMMMap.convertCore]
    refine congrArg (NpArr.mat 1 dw) ?_
    ext i j
    rw [Matrix.mul_apply, Fin.sum_univ_one]
    have hpost : responsibilities gauss s.weights s.src_means s.covarXX x 0 = 1 := by
      rw [responsibilities, Fin.sum_univ_one, div_self hg]
    simp [hpost]

theorem s0b_err : GMMMap.convertErr s0b = none := by
  have h : ∀ m : Fin 1, qdet (s0b.covarXX m) ≠ 0 := fun m => by
    show qdet (1 : Matrix (Fin 1) (Fin 1) ℚ) ≠ 0
    rw [qdet_one]
    norm_num
  rw [GMMMap.convertErr, if_pos h]

theorem C2_witness :
    (GMMMap.convert gauss1 s0b x0 = .ok (.mat 1 1 (Matrix.of fun _ j =>
      ∑ m, responsibilities gauss1 s0b.weights s0b.src_means s0b.covarXX x0 m *
        (s0b.tgt_means m j +
          (s0b.covarYX m *ᵥ (qInv (s0b.covarXX m) *ᵥ
            fun c => x0 c - s0b.src_means m c)) j)))) ∧
    qInv (s0b.covarXX 0) * s0b.covarXX 0 = 1 ∧
    GMMMap.convert gauss1 s0b x0 = .ok (.mat 1 1 (Matrix.of fun _ j =>
      s0b.tgt_means 0 j +
        (s0b.covarYX 0 *ᵥ (qInv (s0b.covarXX 0) *ᵥ
          fun c => x0 c - s0b.src_means 0 c)) j)) :=
  ⟨C2_frame_convert_posterior_mixture.1 0 1 gauss1 s0b x0 s0b_err,
   C2_frame_convert_posterior_mixture.2 1 gauss1 s0b x0 s0b_err
     (show (1 : ℚ) * 1 ≠ 0 by norm_num)⟩

/-- C10 (amended): for every accepted input vector the frame-level
`GMMMap.convert` returns a two-dimensional array of shape `(1, D)` — a
single row of width `D` — not a one-dimensional vector. -/
theorem C10_frame_convert_shape {K dw : ℕ} (gauss : Gauss)
    (s : GMMMapS (K + 1) dw dw) (x : Fin dw → ℚ)
    (herr : GMMMap.convertErr s = none) :
    (GMMMap.convert gauss s x).map NpArr.shape = .ok [1, dw] := by
  simp only [GMMMap.convert, herr]
  rfl

theorem C10_witness :
    (GMMMap.convert gauss1 s0b x0).map NpArr.shape = .ok [1, 1] :=
  C10_frame_convert_shape gauss1 s0b x0 s0b_err

/-- C10 counterexample: at a concrete model and input (one component,
width 1, identity covariance), the value returned by `GMMMap.convert` has
`ndim = 2` — it is the `(1, 1)` matrix `posterior.dot(E)`, not the
one-dimensional length-`D` vector the claim asserts. -/
theorem C10_counterexample :
    (GMMMap.convert gauss1 s0b x0).map NpArr.ndim = .ok 2 ∧ (2 : ℕ) ≠ 1 :=
  ⟨by simp only [GMMMap.convert, s0b_err]; rfl, by norm_num⟩

/-- C4: constructing `GMMMap` with `swap = true` never succeeds: the
parameter-swapping line reads the undefined attribute `self.XY` and every
construction raises `AttributeError`, for every input model. -/
theorem C4_swap_always_raises {K jd : ℕ} (gmm : GMM K jd) :
    GMMMap.init gmm true = .error .errXY := rfl

theorem s5_resid (m : Fin 1) : TrajectoryGMMMap.residualCovar s5 m = 1 := by
  show (1 : Matrix (Fin 2) (Fin 2) ℚ) - 0 * (qInv 1 * 0) = 1
  simp

theorem s5_err : TrajectoryGMMMap.convertErr gauss1 s5 src5 = none := by
  rw [TrajectoryGMMMap.convertErr,
    if_pos (fun t : Fin 2 =>
      ⟨by show qdet (1 : Matrix (Fin 2) (Fin 2) ℚ) ≠ 0; rw [qdet_one]; norm_num,
       by rw [s5_resid, qdet_one]; norm_num⟩),
    if_neg (fun hc => by exact absurd hc.1 (show ¬(1 : ℕ) = 2 by norm_num))]

theorem s5_err2 :
    TrajectoryGMMMap.convertErr gauss1
      (TrajectoryGMMMap.convertCore gauss1 s5 src5).state src5 = none := by
  rw [TrajectoryGMMMap.convertErr,
    if_pos (fun t : Fin 2 =>
      ⟨by show qdet (1 : Matrix (Fin 2) (Fin 2) ℚ) ≠ 0; rw [qdet_one]; norm_num,
       by show qdet ((1 : Matrix (Fin 2) (Fin 2) ℚ) - 0 * (qInv 1 * 0)) ≠ 0
          rw [show (1 : Matrix (Fin 2) (Fin 2) ℚ) - 0 * (qInv 1 * 0) = 1 by simp,
            qdet_one]
          norm_num⟩),
    if_neg (fun hc => by exact absurd hc.1 (show ¬(1 : ℕ) = 2 by norm_num))]

/-- C5: the length cache of the consistency operator is broken: the
attribute `self.T` is never updated by `convert`.  At the concrete
instance `s5` (constructed for `T = 1`) a conversion of a two-frame
sequence is accepted and takes the rebuild branch, but the resulting
state still carries `self.T = 1` (not the claimed new cached length 2),
so an immediately following conversion of another two-frame sequence
takes the rebuild branch again instead of reusing the cache. -/
theorem C5_cache_length_never_updated :
    TrajectoryGMMMap.convertErr gauss1 s5 src5 = none ∧
    (TrajectoryGMMMap.convertCore gauss1 s5 src5).rebuilt = true ∧
    (TrajectoryGMMMap.convertCore gauss1 s5 src5).state.T = 1 ∧
    (1 : ℕ) ≠ 2 ∧
    TrajectoryGMMMap.convertErr gauss1
      (TrajectoryGMMMap.convertCore gauss1 s5 src5).state src5 = none ∧
    (TrajectoryGMMMap.convertCore gauss1
      (TrajectoryGMMMap.convertCore gauss1 s5 src5).state src5).rebuilt = true :=
  ⟨s5_err, rfl, rfl, by norm_num, s5_err2, rfl⟩

/-- C6 counterexample: the split parameters held by the instance are not
immutable across conversions — at the concrete accepted input, the
attribute `self.D`, which at construction time holds the per-component
residual covariances, is rebound by `convert` (to the block-diagonal
per-frame precision), so it differs from its construction-time value. -/
theorem C6_counterexample :
    TrajectoryGMMMap.convertErr gauss1 s5 src5 = none ∧
    (TrajectoryGMMMap.convertCore gauss1 s5 src5).state.D ≠ s5.D :=
  ⟨s5_err, fun h => DField.noConfusion h⟩

/-- C6 (amended): a successful `TrajectoryGMMMap.convert` leaves the split
parameters (weights, means, covariance blocks), the cached length and the
GV parameters unchanged, but overwrites the instance attributes `self.D`
(with the block-diagonal stack of per-frame precisions) and `self.E`
(with the flattened per-frame estimates); the construction-time residual
covariance array held in `self.D` is therefore not preserved. -/
theorem C6_convert_rebinds_D_E {K d dg T : ℕ} (gauss : Gauss)
    (s : TrajState (K + 1) (2 * d) (2 * d) dg)
    (src : Matrix (Fin T) (Fin (2 * d)) ℚ)
    (r : TrajectoryGMMMap.TrajResult (K + 1) d dg T)
    (hr : TrajectoryGMMMap.convert gauss s src = .ok r) :
    r.state.weights = s.weights ∧ r.state.src_means = s.src_means ∧
    r.state.tgt_means = s.tgt_means ∧ r.state.covarXX = s.covarXX ∧
    r.state.covarXY = s.covarXY ∧ r.state.covarYX = s.covarYX ∧
    r.state.covarYY = s.covarYY ∧ r.state.T = s.T ∧ r.state.gv = s.gv ∧
    r.state.D = .blockDiagonal (2 * d * T) r.P ∧
    r.state.E = .present (2 * d * T) (flat T (2 * d) r.E) := by
  obtain ⟨herr, hrc⟩ := TrajectoryGMMMap.convert_ok gauss s src r hr
  subst hrc
  exact ⟨rfl, rfl, rfl, rfl, rfl, rfl, rfl, rfl, rfl, rfl, rfl⟩

theorem C6_witness :
    (TrajectoryGMMMap.convertCore gauss1 s5 src5).state.D =
      .blockDiagonal (2 * 1 * 2) (TrajectoryGMMMap.convertCore gauss1 s5 src5).P ∧
    (TrajectoryGMMMap.convertCore gauss1 s5 src5).state.E =
      .present (2 * 1 * 2)
        (flat 2 (2 * 1) (TrajectoryGMMMap.convertCore gauss1 s5 src5).E) :=
  ⟨(C6_convert_rebinds_D_E gauss1 s5 src5 _
      (by rw [TrajectoryGMMMap.convert, s5_err])).2.2.2.2.2.2.2.2.2.1,
   (C6_convert_rebinds_D_E gauss1 s5 src5 _
      (by rw [TrajectoryGMMMap.convert, s5_err])).2.2.2.2.2.2.2.2.2.2⟩

theorem qdet_fin_one (A : Matrix (Fin 1) (Fin 1) ℚ) : qdet A = A 0 0 := by
  rw [qdet_eq_det, Matrix.det_fin_one]

theorem TrajectoryGMMMap.convertErr_ne_errPv {K d dg T : ℕ} (gauss : Gauss)
    (s : TrajState (K + 1) (2 * d) (2 * d) dg)
    (src : Matrix (Fin T) (Fin (2 * d)) ℚ) (e : Err)
    (h : TrajectoryGMMMap.convertErr gauss s src = some e) : e ≠ .errPv := by
  intro hc
  subst hc
  rw [TrajectoryGMMMap.convertErr] at h
  split_ifs at h <;> simp_all

theorem TrajectoryGMMMap.gvLoop_ok {K d T : ℕ}
    (r : TrajectoryGMMMap.TrajResult (K + 1) d d T) (om lr : ℚ)
    (gvp : GVParams d) (hgv : r.state.gv = some gvp) :
    ∀ n y, ∃ z, TrajectoryGMMMap.gvLoop r om lr n y = .ok z := by
  intro n
  induction n with
  | zero => exact fun y => ⟨y, rfl⟩
  | succ n ih =>
      intro y
      rw [TrajectoryGMMMap.gvLoop, hgv]
      exact ih _

/-- C8 (amended): on an instance constructed without a GV model, the GV
post-filter fails with the missing-GV error (the `AttributeError` on the
absent `self.Pv`) for every call whose epoch count is at least 1 — the
failure arises inside the first gradient iteration, after the plain
conversion has succeeded — while a call with `epoches = 0` returns the
plain trajectory without failing (see the counterexample); on an instance
holding a GV model, no call ever fails with that error. -/
theorem C8_missing_gv_error :
    (∀ (K d T : ℕ) (gauss : Gauss) (s : TrajState (K + 1) (2 * d) (2 * d) d)
        (src : Matrix (Fin T) (Fin (2 * d)) ℚ) (epoches : ℕ) (lr : ℚ),
      s.gv = none → 1 ≤ epoches →
      TrajectoryGMMMap.convertErr gauss s src = none →
      TrajectoryGMMMap.convert_with_gv gauss s src epoches lr = .error .errPv) ∧
    (∀ (K d T : ℕ) (gauss : Gauss) (s : TrajState (K + 1) (2 * d) (2 * d) d)
        (src : Matrix (Fin T) (Fin (2 * d)) ℚ) (epoches : ℕ) (lr : ℚ)
        (gvp : GVParams d),
      s.gv = some gvp →
      TrajectoryGMMMap.convert_with_gv gauss s src epoches lr ≠ .error .errPv) := by
  constructor
  · intro K d T gauss s src epoches lr hgv hep herr
    obtain ⟨n, rfl⟩ : ∃ n, epoches = n + 1 := ⟨epoches - 1, by omega⟩
    have hgv' : (TrajectoryGMMMap.convertCore gauss s src).state.gv = none := hgv
    simp only [TrajectoryGMMMap.convert_with_gv, herr, TrajectoryGMMMap.gvLoop, hgv']
  · intro K d T gauss s src epoches lr gvp hgv
    cases herr : TrajectoryGMMMap.convertErr gauss s src with
    | some e =>
        have he := TrajectoryGMMMap.convertErr_ne_errPv gauss s src e herr
        simp only [TrajectoryGMMMap.convert_with_gv, herr]
        intro hcontra
        exact he (by injection hcontra)
    | none =>
        have hgv' : (TrajectoryGMMMap.convertCore gauss s src).state.gv = some gvp := hgv
        obtain ⟨z, hz⟩ := TrajectoryGMMMap.gvLoop_ok
          (TrajectoryGMMMap.convertCore gauss s src) (1 / (2 * (T : ℚ))) lr gvp hgv'
          epoches (TrajectoryGMMMap.convertCore gauss s src).y
        simp only [TrajectoryGMMMap.convert_with_gv, herr, hz]
        simp

/-- C8 counterexample: a call of the GV post-filter with `epoches = 0` on
an instance that has no GV model does not fail at all — it returns the
plain trajectory (with the default learning rate 0.0045) — refuting the
claim that every such call fails with the missing-GV error. -/
theorem C8_counterexample :
    s5.gv = none ∧
    TrajectoryGMMMap.convert_with_gv gauss1 s5 src5 0 (9 / 2000) =
      .ok ((TrajectoryGMMMap.convertCore gauss1 s5 src5).state,
        (TrajectoryGMMMap.convertCore gauss1 s5 src5).y) := by
  refine ⟨rfl, ?_⟩
  simp only [TrajectoryGMMMap.convert_with_gv, s5_err]
  rfl

theorem s9_err : TrajectoryGMMMap.convertErr gauss1 s9 src5 = none := by
  rw [TrajectoryGMMMap.convertErr,
    if_pos (fun t : Fin 2 =>
      ⟨by show qdet (1 : Matrix (Fin 2) (Fin 2) ℚ) ≠ 0; rw [qdet_one]; norm_num,
       by show qdet ((1 : Matrix (Fin 2) (Fin 2) ℚ) - 0 * (qInv 1 * 0)) ≠ 0
          rw [show (1 : Matrix (Fin 2) (Fin 2) ℚ) - 0 * (qInv 1 * 0) = 1 by simp,
            qdet_one]
          norm_num⟩),
    if_neg (fun hc => by exact absurd hc.1 (show ¬(1 : ℕ) = 2 by norm_num))]

theorem C8_witness :
    TrajectoryGMMMap.convert_with_gv gauss1 s5 src5 3 1 = .error .errPv ∧
    TrajectoryGMMMap.convert_with_gv gauss1 s9 src5 3 1 ≠ .error .errPv :=
  ⟨C8_missing_gv_error.1 0 1 2 gauss1 s5 src5 3 1 rfl (by norm_num) s5_err,
   C8_missing_gv_error.2 0 1 2 gauss1 s9 src5 3 1 ⟨fun _ => 0, 1, qInv 1⟩ rfl⟩

/-- C9: on every input accepted by the underlying conversion, and for
every accepted parameterisation of the GV post-filter (an instance holding
a GV model and an arbitrary epoch count, or any instance with epoch count
0 — precisely the calls that do not fail on the missing GV model), calling
`convert_with_gv` with learning rate 0 returns exactly the trajectory (and
instance state) produced by `convert` on the same input: every gradient
step adds `0 · grad`. -/
theorem C9_zero_learning_rate_matches_convert {K d T : ℕ} (gauss : Gauss)
    (s : TrajState (K + 1) (2 * d) (2 * d) d)
    (src : Matrix (Fin T) (Fin (2 * d)) ℚ) (epoches : ℕ)
    (hgv : (∃ gvp, s.gv = some gvp) ∨ epoches = 0)
    (r : TrajectoryGMMMap.TrajResult (K + 1) d d T)
    (hr : TrajectoryGMMMap.convert gauss s src = .ok r) :
    TrajectoryGMMMap.convert_with_gv gauss s src epoches 0 =
      .ok (r.state, r.y) := by
  obtain ⟨herr, hrc⟩ := TrajectoryGMMMap.convert_ok gauss s src r hr
  subst hrc
  rcases hgv with ⟨gvp, hgv⟩ | rfl
  · have hgv' : (TrajectoryGMMMap.convertCore gauss s src).state.gv = some gvp := hgv
    have hloop : ∀ n y,
        TrajectoryGMMMap.gvLoop (TrajectoryGMMMap.convertCore gauss s src)
          (1 / (2 * (T : ℚ))) 0 n y = .ok y := by
      intro n
      induction n with
      | zero => exact fun y => rfl
      | succ n ih =>
          intro y
          rw [TrajectoryGMMMap.gvLoop, hgv']
          simp only [zero_smul, add_zero]
          exact ih y
    simp only [TrajectoryGMMMap.convert_with_gv, herr, hloop]
  · simp only [TrajectoryGMMMap.convert_with_gv, herr]
    rfl

theorem C9_witness :
    TrajectoryGMMMap.convert_with_gv gauss1 s9 src5 2 0 =
      .ok ((TrajectoryGMMMap.convertCore gauss1 s9 src5).state,
        (TrajectoryGMMMap.convertCore gauss1 s9 src5).y) :=
  C9_zero_learning_rate_matches_convert gauss1 s9 src5 2
    (Or.inl ⟨⟨fun _ => 0, 1, qInv 1⟩, rfl⟩)
    _ (by rw [TrajectoryGMMMap.convert, s9_err])

theorem blockDiag_one (T n : ℕ) : blockDiag T n (fun _ => 1) = 1 := by
  ext r c
  have hr := r.isLt
  have hn : 0 < n := by
    rcases Nat.eq_zero_or_pos n with h | h
    · have hnT : n * T = 0 := by rw [h]; exact Nat.zero_mul T
      omega
    · exact h
  rw [blockDiag, Matrix.of_apply]
  by_cases h : (r : ℕ) / n = (c : ℕ) / n ∧ (r : ℕ) / n < T ∧
      (r : ℕ) % n < n ∧ (c : ℕ) % n < n
  · rw [dif_pos h, Matrix.one_apply, Matrix.one_apply]
    by_cases hm : (r : ℕ) % n = (c : ℕ) % n
    · have hrc : r = c := by
        have h1 := Nat.div_add_mod (r : ℕ) n
        have h2 := Nat.div_add_mod (c : ℕ) n
        refine Fin.ext ?_
        rw [h.1, hm] at h1
        omega
      simp [hrc, Fin.ext_iff, hm]
    · have hrc : ¬r = c := fun hh => hm (by rw [hh])
      simp [Fin.ext_iff, hm, hrc]
  · rw [dif_neg h]
    have hrc : ¬r = c := by
      intro hh
      subst hh
      exact h ⟨rfl, Nat.div_lt_of_lt_mul hr, Nat.mod_lt _ hn, Nat.mod_lt _ hn⟩
    rw [Matrix.one_apply_ne hrc]

theorem s5_err1 : TrajectoryGMMMap.convertErr gauss1 s5 src1 = none := by
  rw [TrajectoryGMMMap.convertErr,
    if_pos (fun t : Fin 1 =>
      ⟨by show qdet (1 : Matrix (Fin 2) (Fin 2) ℚ) ≠ 0; rw [qdet_one]; norm_num,
       by rw [s5_resid, qdet_one]; norm_num⟩),
    if_neg (fun hc => ?_)]
  have h2 := hc.2
  rw [WStore.get, dif_pos ⟨rfl, rfl⟩] at h2
  simp at h2

theorem Wt_getD_lo_nat (T d t i : ℕ) (hi : i < d) :
    (Wt T d t).getD i [] = w0row T d t ⟨i, hi⟩ :=
  Wt_getD_lo T d t ⟨i, hi⟩

theorem Wt_getD_hi_nat (T d t i : ℕ) (hi : i < d) :
    (Wt T d t).getD (d + i) [] = w1row T d t ⟨i, hi⟩ :=
  Wt_getD_hi T d t ⟨i, hi⟩

theorem w0row_getD_nat (T d t i c : ℕ) (hi : i < d) (hc : c < d * T) :
    (w0row T d t ⟨i, hi⟩).getD c 0 = if c = t * d + i then 1 else 0 :=
  w0row_getD T d t ⟨i, hi⟩ ⟨c, hc⟩

theorem w1row_getD_nat (T d t i c : ℕ) (hi : i < d) (hc : c < d * T) :
    (w1row T d t ⟨i, hi⟩).getD c 0 =
      if 1 ≤ t ∧ c = (t - 1) * d + i then -(1 / 2)
      else if t + 1 < T ∧ c = (t + 1) * d + i then 1 / 2
      else 0 :=
  w1row_getD T d t ⟨i, hi⟩ ⟨c, hc⟩

/-- The `T = 1, D = 1` consistency operator entrywise: static row `(1)`,
delta row `(0)` (a single frame has no neighbours). -/
theorem W11_entry (r : Fin (2 * 1 * 1)) (c : Fin (1 * 1)) :
    construct_weight_matrix 1 1 r c = if (r : ℕ) = 0 then 1 else 0 := by
  have hr := r.isLt
  have hc := c.isLt
  have hc0 : (c : ℕ) = 0 := by omega
  rw [construct_weight_matrix, toMat, Matrix.of_apply, hc0]
  rcases (by omega : (r : ℕ) = 0 ∨ (r : ℕ) = 1) with h0 | h1
  · rw [h0]
    have h := Wrows_getD 1 1 0 0 (by norm_num) (by norm_num)
    simp only [Nat.mul_zero, Nat.zero_add] at h
    rw [h, Wt_getD_lo_nat 1 1 0 0 (by norm_num),
      w0row_getD_nat 1 1 0 0 0 (by norm_num) (by norm_num)]
  · rw [h1]
    have h := Wrows_getD 1 1 0 1 (by norm_num) (by norm_num)
    simp only [Nat.mul_zero, Nat.zero_add] at h
    rw [h]
    have h2 : (Wt 1 1 0).getD 1 [] = w1row 1 1 0 ⟨0, by norm_num⟩ := by
      have h3 := Wt_getD_hi_nat 1 1 0 0 (by norm_num)
      simpa using h3
    rw [h2, w1row_getD_nat 1 1 0 0 0 (by norm_num) (by norm_num)]
    norm_num

theorem C1_witness :
    ((TrajectoryGMMMap.convertCore gauss1 s5 src1).Wᵀ *
        ((TrajectoryGMMMap.convertCore gauss1 s5 src1).P *
          (TrajectoryGMMMap.convertCore gauss1 s5 src1).W)) *ᵥ
      flat 1 1 (TrajectoryGMMMap.convertCore gauss1 s5 src1).y =
    (TrajectoryGMMMap.convertCore gauss1 s5 src1).Wᵀ *ᵥ
      ((TrajectoryGMMMap.convertCore gauss1 s5 src1).P *ᵥ
        flat 1 (2 * 1) (TrajectoryGMMMap.convertCore gauss1 s5 src1).E) := by
  have hW : (TrajectoryGMMMap.convertCore gauss1 s5 src1).W =
      construct_weight_matrix 1 1 := rfl
  have hP : (TrajectoryGMMMap.convertCore gauss1 s5 src1).P = 1 := by
    rw [TrajectoryGMMMap.convertCore_P]
    have hres : (fun t : Fin 1 => qInv (TrajectoryGMMMap.residualCovar s5
        (TrajectoryGMMMap.optimum_mix gauss1 s5 src1 t))) = fun _ => 1 := by
      funext t
      rw [s5_resid, qInv_one]
    rw [hres, blockDiag_one]
  have hWW : (construct_weight_matrix 1 1)ᵀ * construct_weight_matrix 1 1 = 1 := by
    ext i j
    have hij : i = j := Fin.ext (by have hi := i.isLt; have hj := j.isLt; omega)
    subst hij
    rw [Matrix.mul_apply, Matrix.one_apply_eq]
    calc ∑ k, (construct_weight_matrix 1 1)ᵀ i k * construct_weight_matrix 1 1 k i
        = ∑ k : Fin (2 * 1 * 1),
            (if (k : ℕ) = 0 then (1 : ℚ) else 0) * (if (k : ℕ) = 0 then 1 else 0) :=
          Finset.sum_congr rfl fun k _ => by
            simp only [Matrix.transpose_apply, W11_entry]
      _ = 1 := by rw [Fin.sum_univ_two]; simp
  have hdet : qdet ((TrajectoryGMMMap.convertCore gauss1 s5 src1).Wᵀ *
      ((TrajectoryGMMMap.convertCore gauss1 s5 src1).P *
        (TrajectoryGMMMap.convertCore gauss1 s5 src1).W)) ≠ 0 := by
    rw [hW, hP, Matrix.one_mul, hWW, qdet_one]
    norm_num
  exact (C1_trajectory_is_system_solution gauss1 s5 src1 _
    (by rw [TrajectoryGMMMap.convert, s5_err1]) hdet).2.2.2.2
